import Mathlib

/-!
Shallow embedding of the connection registry and message-dispatch core of the
whatsapp-gemini chat server (`cmd/server/hub.go` and `cmd/server/main.go`).

Go maps are modelled extensionally as functions `String → Option α` (a Go map
holds at most one value per key; insertion overwrites, deletion removes, and
lookup of a missing key yields the zero value / `none`).  The room member set,
a `map[string]bool` in the source that is only ever written with `true` and
iterated over its keys, is modelled as a duplicate-free key list.  Outbound
websocket writes are modelled as events carrying the written payload; a
payload is either the raw inbound bytes forwarded verbatim or the encoding of
a server-constructed `Message` record.  Write failures are modelled by an
oracle `wres` deciding the success of each write, since the source only logs
a failed write and otherwise ignores the result.
-/

namespace WhatsappGemini

/-- Model of `connection` from `hub.go`: an opaque wrapper around one websocket handle.
The handle itself is opaque; a `Nat` tag stands for its identity. -/
structure Conn where
  ws : Nat
deriving DecidableEq, Repr

/-- Model of `Message` from `hub.go`: the JSON envelope exchanged with clients.
Fields absent from a frame decode to the empty string (Go zero value). -/
structure Message where
  type : String
  sender : String
  recipient : String
  content : String
  room : String
deriving DecidableEq, Repr

/-- Model of `Room` from `hub.go`: a named room with its member set.  The Go
`map[string]bool` member set is modelled as its list of keys. -/
structure Room where
  name : String
  members : List String
deriving DecidableEq, Repr

/-- Model of `Hub` from `hub.go`: the registry mapping identities to connections and
room names to rooms.  The two Go maps are modelled extensionally. -/
structure Hub where
  clients : String → Option Conn
  rooms : String → Option Room

/-- Model of `NewHub` from `hub.go`: both maps start empty. -/
def NewHub : Hub :=
  ⟨fun _ => none, fun _ => none⟩

/-- Model of `register` from `hub.go`: `h.clients[id] = conn`, overwriting any
previous entry for `id`. -/
def Hub.register (h : Hub) (id : String) (conn : Conn) : Hub :=
  { h with clients := fun x => if x = id then some conn else h.clients x }

/-- Model of `unregister` from `hub.go`: `delete(h.clients, id)`; deleting an
absent key is a no-op in Go. -/
def Hub.unregister (h : Hub) (id : String) : Hub :=
  { h with clients := fun x => if x = id then none else h.clients x }

/-- Model of `get` from `hub.go`: comma-ok map lookup of the identity. -/
def Hub.get (h : Hub) (id : String) : Option Conn :=
  h.clients id

/-- Key-set insertion used for `room.Members[invitee] = true`: adding a key
already present leaves a Go map unchanged. -/
def setInsert (ms : List String) (x : String) : List String :=
  if x ∈ ms then ms else ms ++ [x]

/-- Model of `createRoom` from `hub.go`: fails with a non-empty error string when
the name is taken, otherwise stores a room whose sole member is the creator.
The empty string is Go's success sentinel. -/
def Hub.createRoom (h : Hub) (name creator : String) : Hub × String :=
  match h.rooms name with
  | some _ => (h, "room " ++ name ++ " already exists")
  | none =>
      ({ h with rooms := fun x => if x = name then some ⟨name, [creator]⟩ else h.rooms x }, "")

/-- Model of `addToRoom` from `hub.go`: fails when the room is missing or the
inviter is not a member; otherwise inserts the invitee into the member set. -/
def Hub.addToRoom (h : Hub) (roomName inviter invitee : String) : Hub × String :=
  match h.rooms roomName with
  | none => (h, "room " ++ roomName ++ " does not exist")
  | some room =>
      if inviter ∈ room.members then
        ({ h with rooms := fun x =>
            if x = roomName then some ⟨room.name, setInsert room.members invitee⟩
            else h.rooms x }, "")
      else
        (h, "you are not a member of room " ++ roomName)

/-- Model of `getRoomMembers` from `hub.go`: `nil` (here `none`) when the room does
not exist or the requester is not a member; otherwise the key list of the
member map. -/
def Hub.getRoomMembers (h : Hub) (roomName requester : String) : Option (List String) :=
  match h.rooms roomName with
  | none => none
  | some room => if requester ∈ room.members then some room.members else none

/-- An outbound websocket payload: either the raw inbound bytes forwarded
verbatim (`handleDirectMessage`) or `json.Marshal` of a server-built record. -/
inductive Payload where
  | raw (bytes : Nat)
  | enc (m : Message)
deriving DecidableEq, Repr

/-- An observable action of the session handler: a write of a payload to a
connection (with the success bit the transport reported), the deferred
`c.Close`, or the deferred `hub.unregister`. -/
inductive Event where
  | write (c : Conn) (p : Payload) (ok : Bool)
  | close
  | unregister (id : String)
deriving DecidableEq, Repr

/-- Whether an event is an outbound write. -/
def Event.isWrite : Event → Bool
  | Event.write _ _ _ => true
  | _ => false

/-- A write-outcome oracle: whether a given write on a given connection
succeeds.  The source only logs failures, so the oracle never influences
control flow; it only decorates write events. -/
def WriteOracle : Type :=
  Conn → Payload → Bool

/-- Model of `sendJSON` from `main.go`: marshal the record and write it (marshalling a
`Message` of plain strings cannot fail). -/
def sendJSON (wres : WriteOracle) (c : Conn) (msg : Message) : Event :=
  Event.write c (Payload.enc msg) (wres c (Payload.enc msg))

/-- The `error`-typed record `sendError` builds in `main.go`. -/
def errorRecord (errMsg : String) : Message :=
  ⟨"error", "server", "", errMsg, ""⟩

/-- Model of `sendError` from `main.go`: write an `error` record back to the client. -/
def sendError (wres : WriteOracle) (c : Conn) (errMsg : String) : Event :=
  sendJSON wres c (errorRecord errMsg)

/-- Model of `handleDirectMessage` from `main.go`: look the recipient up in the hub;
if present, forward the original raw bytes unchanged; if absent, drop the
message without writing anything. -/
def handleDirectMessage (h : Hub) (wres : WriteOracle) (msg : Message)
    (rawPayload : Nat) : List Event :=
  match h.get msg.recipient with
  | none => []
  | some recipientConn =>
      [Event.write recipientConn (Payload.raw rawPayload)
        (wres recipientConn (Payload.raw rawPayload))]

/-- Model of `handleCreateRoom` from `main.go`: room name is `content`, falling back to
`room`; empty name or a `createRoom` failure sends an error record, success
sends a `room_created` acknowledgment. -/
def handleCreateRoom (h : Hub) (wres : WriteOracle) (userID : String)
    (msg : Message) (c : Conn) : Hub × List Event :=
  let roomName := if msg.content = "" then msg.room else msg.content
  if roomName = "" then
    (h, [sendError wres c "room name is required"])
  else
    let r := h.createRoom roomName userID
    if r.2 = "" then
      (r.1, [sendJSON wres c
        ⟨"room_created", "server", "", "room " ++ roomName ++ " created successfully", roomName⟩])
    else
      (r.1, [sendError wres c r.2])

/-- Model of `handleInvite` from `main.go`: requires `room` and `recipient`; on
`addToRoom` success acknowledges the inviter and, when the invitee is online,
notifies the invitee; on failure sends the inviter an error record. -/
def handleInvite (h : Hub) (wres : WriteOracle) (userID : String)
    (msg : Message) (c : Conn) : Hub × List Event :=
  let roomName := msg.room
  let invitee := msg.recipient
  if roomName = "" ∨ invitee = "" then
    (h, [sendError wres c "room and recipient are required for invite"])
  else
    let r := h.addToRoom roomName userID invitee
    if r.2 = "" then
      let ackEv := sendJSON wres c
        ⟨"invite_sent", "server", "", "user " ++ invitee ++ " invited to room " ++ roomName, roomName⟩
      match r.1.get invitee with
      | some inviteeConn =>
          (r.1, [ackEv, sendJSON wres inviteeConn
            ⟨"invited", userID, "",
              "you have been invited to room " ++ roomName ++ " by " ++ userID, roomName⟩])
      | none => (r.1, [ackEv])
    else
      (r.1, [sendError wres c r.2])

/-- The broadcast record `handleRoomMessage` re-encodes once: sender is the
connection's identity, not the inbound message's claimed sender. -/
def roomBroadcast (userID roomName content : String) : Message :=
  ⟨"room_msg", userID, "", content, roomName⟩

/-- Model of `handleRoomMessage` from `main.go`: missing room name or a `nil` member
list (room absent or sender unauthorized) drops the message silently;
otherwise the re-encoded record is written to every member other than the
sender whose connection is currently registered.  The hub is not mutated. -/
def handleRoomMessage (h : Hub) (wres : WriteOracle) (userID : String)
    (msg : Message) : List Event :=
  if msg.room = "" then []
  else
    match h.getRoomMembers msg.room userID with
    | none => []
    | some members =>
        let data := Payload.enc (roomBroadcast userID msg.room msg.content)
        (members.filter (fun m => m ≠ userID)).filterMap
          (fun memberID =>
            (h.get memberID).map
              (fun memberConn => Event.write memberConn data (wres memberConn data)))

/-- One iteration's input in the session read loop: a transport read failure,
or a frame with its raw bytes and its `json.Unmarshal` result. -/
inductive ReadItem where
  | failure
  | frame (raw : Nat) (decoded : Option Message)
deriving DecidableEq, Repr

/-- The `switch msg.Type` dispatch in `wsHandler`: `create_room`, `invite`,
`room_msg`, and default (direct message, forwarding the raw bytes). -/
def dispatch (h : Hub) (wres : WriteOracle) (userID : String) (c : Conn)
    (raw : Nat) (msg : Message) : Hub × List Event :=
  if msg.type = "create_room" then handleCreateRoom h wres userID msg c
  else if msg.type = "invite" then handleInvite h wres userID msg c
  else if msg.type = "room_msg" then (h, handleRoomMessage h wres userID msg)
  else (h, handleDirectMessage h wres msg raw)

/-- The read loop of `wsHandler`, given the sequence of read results.  A read
failure breaks the loop, after which the deferred calls run in LIFO order:
`c.Close` (deferred last) first, then `hub.unregister` — so the events on
termination are `close` followed by `unregister`.  A decode failure skips the
frame.  An exhausted list models a connection still blocked in `Read` (no
cleanup has run yet). -/
def sessionLoop (wres : WriteOracle) (userID : String) (c : Conn) :
    Hub → List ReadItem → Hub × List Event
  | h, [] => (h, [])
  | h, ReadItem.failure :: _ =>
      (h.unregister userID, [Event.close, Event.unregister userID])
  | h, ReadItem.frame _ none :: rest => sessionLoop wres userID c h rest
  | h, ReadItem.frame raw (some msg) :: rest =>
      let r := dispatch h wres userID c raw msg
      let r' := sessionLoop wres userID c r.1 rest
      (r'.1, r.2 ++ r'.2)

/-- Model of `wsHandler` from `main.go`: an empty identity is rejected with HTTP 400
before any registration; otherwise the connection is registered and the read
loop runs. -/
def wsHandler (h : Hub) (wres : WriteOracle) (userID : String) (c : Conn)
    (items : List ReadItem) : Hub × List Event :=
  if userID = "" then (h, [])
  else sessionLoop wres userID c (h.register userID c) items

/-! ## Helper lemmas -/

/-- A string with a non-empty second component of an append is non-empty. -/
theorem append_ne_empty_right (s t : String) (ht : t ≠ "") : s ++ t ≠ "" := by
  intro hc
  have hl := congrArg String.length hc
  rw [String.length_append] at hl
  have he : ("" : String).length = 0 := rfl
  have h0 : t.length = 0 := by omega
  apply ht
  cases t with
  | mk data =>
    cases data with
    | nil => rfl
    | cons a l => simp [String.length] at h0

/-- A string with a non-empty first component of an append is non-empty. -/
theorem append_ne_empty_left (s t : String) (hs : s ≠ "") : s ++ t ≠ "" := by
  intro hc
  have hl := congrArg String.length hc
  rw [String.length_append] at hl
  have he : ("" : String).length = 0 := rfl
  have h0 : s.length = 0 := by omega
  apply hs
  cases s with
  | mk data =>
    cases data with
    | nil => rfl
    | cons a l => simp [String.length] at h0

/-- Membership in the key-set insertion. -/
theorem mem_setInsert (ms : List String) (x y : String) :
    y ∈ setInsert ms x ↔ y ∈ ms ∨ y = x := by
  unfold setInsert
  by_cases hx : x ∈ ms
  · simp only [hx, if_pos]
    constructor
    · exact Or.inl
    · rintro (hy | rfl)
      · exact hy
      · exact hx
  · simp [hx]

/-- Key-set insertion only grows the set. -/
theorem subset_setInsert (ms : List String) (x : String) : ms ⊆ setInsert ms x := by
  intro y hy
  exact (mem_setInsert ms x y).mpr (Or.inl hy)

/-! ## C2: registry register / unregister / lookup contract -/

/-- C2: in any registry state, `register` always succeeds and makes `lookup`
return the registered handle; a second `register` for the same identity
replaces the first (replace-on-collision); after `unregister` the identity is
absent; and `unregister` of an absent identity is a no-op, not an error. -/
theorem registry_contract (h : Hub) (i : String) (c₁ c₂ : Conn) :
    ((h.register i c₁).get i = some c₁) ∧
    (((h.register i c₁).register i c₂).get i = some c₂) ∧
    ((h.unregister i).get i = none) ∧
    (h.get i = none → h.unregister i = h) := by
  refine ⟨?_, ?_, ?_, ?_⟩
  · simp [Hub.register, Hub.get]
  · simp [Hub.register, Hub.get]
  · simp [Hub.unregister, Hub.get]
  · intro habs
    cases h with
    | mk cl rm =>
      simp only [Hub.get] at habs
      simp only [Hub.unregister, Hub.mk.injEq, and_true]
      funext x
      by_cases hx : x = i
      · subst hx; simp [habs]
      · simp [hx]

/-! ## C5: createRoom succeeds exactly on fresh names -/

/-- C5: `createRoom` succeeds exactly when no room of that name exists; on
success the new room's member set is exactly `{creator}` and nothing else
changes; on an existing name it fails with an already-exists error and leaves
the hub unchanged, so a second `createRoom` with the same name fails. -/
theorem createRoom_contract (h : Hub) (n c : String) :
    ((h.createRoom n c).2 = "" ↔ h.rooms n = none) ∧
    (h.rooms n = none →
      (h.createRoom n c).1.rooms n = some ⟨n, [c]⟩ ∧
      (∀ m, m ≠ n → (h.createRoom n c).1.rooms m = h.rooms m) ∧
      (h.createRoom n c).1.clients = h.clients) ∧
    (∀ room, h.rooms n = some room →
      (h.createRoom n c).1 = h ∧
      (h.createRoom n c).2 = "room " ++ n ++ " already exists") ∧
    (h.rooms n = none → ∀ c',
      ((h.createRoom n c).1.createRoom n c').1 = (h.createRoom n c).1 ∧
      ((h.createRoom n c).1.createRoom n c').2 ≠ "") := by
  cases hn : h.rooms n with
  | none =>
    have hfst : h.createRoom n c =
        ({ h with rooms := fun x => if x = n then some ⟨n, [c]⟩ else h.rooms x }, "") := by
      simp [Hub.createRoom, hn]
    refine ⟨?_, ?_, ?_, ?_⟩
    · simp [hfst]
    · intro _
      refine ⟨by simp [hfst], fun m hm => ?_, by simp [hfst]⟩
      simp [hfst, hm]
    · intro room hroom
      exact Option.noConfusion hroom
    · intro _ c'
      have h2 : (h.createRoom n c).1.createRoom n c' =
          ((h.createRoom n c).1, "room " ++ n ++ " already exists") := by
        rw [hfst]
        simp [Hub.createRoom]
      refine ⟨by rw [h2], ?_⟩
      rw [h2]
      exact append_ne_empty_right ("room " ++ n) " already exists" (by decide)
  | some room =>
    have hfst : h.createRoom n c = (h, "room " ++ n ++ " already exists") := by
      simp [Hub.createRoom, hn]
    refine ⟨?_, ?_, ?_, ?_⟩
    · rw [hfst]
      constructor
      · intro hc
        exact absurd hc (append_ne_empty_right ("room " ++ n) " already exists" (by decide))
      · intro hc; exact Option.noConfusion hc
    · intro habs; exact Option.noConfusion habs
    · intro room' _
      rw [hfst]
      exact ⟨rfl, rfl⟩
    · intro habs; exact Option.noConfusion habs

/-! ## C6: room member visibility requires membership -/

/-- C6: `getRoomMembers` returns `none` both for a nonexistent room and for a
requester who is not a member; a member list is returned only when the
requester is themself among the room's members. -/
theorem getRoomMembers_contract (h : Hub) (r q : String) :
    (h.rooms r = none → h.getRoomMembers r q = none) ∧
    (∀ room, h.rooms r = some room → q ∉ room.members → h.getRoomMembers r q = none) ∧
    (∀ ms, h.getRoomMembers r q = some ms →
      ∃ room, h.rooms r = some room ∧ q ∈ room.members ∧ ms = room.members) := by
  cases hr : h.rooms r with
  | none =>
    refine ⟨fun _ => by simp [Hub.getRoomMembers, hr], ?_, ?_⟩
    · intro room hroom
      exact Option.noConfusion hroom
    · intro ms hms
      simp [Hub.getRoomMembers, hr] at hms
  | some room =>
    refine ⟨?_, ?_, ?_⟩
    · intro habs; exact Option.noConfusion habs
    · intro room' hroom' hq
      injection hroom' with he
      subst he
      simp [Hub.getRoomMembers, hr, hq]
    · intro ms hms
      by_cases hq : q ∈ room.members
      · refine ⟨room, rfl, hq, ?_⟩
        simp [Hub.getRoomMembers, hr, hq] at hms
        exact hms.symm
      · simp [Hub.getRoomMembers, hr, hq] at hms

/-! ## C4: addToRoom membership contract -/

/-- C4: `addToRoom` fails (leaving the hub unchanged) when the room does not
exist or the inviter is not a member; otherwise it succeeds and the room's
member set becomes exactly the old set plus the invitee (a no-op if already a
member), other rooms and the client map untouched; and the operation never
reads the client map, so whether the invitee is online cannot affect it. -/
theorem addToRoom_contract (h : Hub) (r inviter invitee : String) :
    (h.rooms r = none →
      (h.addToRoom r inviter invitee).1 = h ∧ (h.addToRoom r inviter invitee).2 ≠ "") ∧
    (∀ room, h.rooms r = some room → inviter ∉ room.members →
      (h.addToRoom r inviter invitee).1 = h ∧ (h.addToRoom r inviter invitee).2 ≠ "") ∧
    (∀ room, h.rooms r = some room → inviter ∈ room.members →
      (h.addToRoom r inviter invitee).2 = "" ∧
      (∃ room', (h.addToRoom r inviter invitee).1.rooms r = some room' ∧
        room'.name = room.name ∧
        (∀ x, x ∈ room'.members ↔ x ∈ room.members ∨ x = invitee)) ∧
      (∀ r', r' ≠ r → (h.addToRoom r inviter invitee).1.rooms r' = h.rooms r') ∧
      (h.addToRoom r inviter invitee).1.clients = h.clients) ∧
    (∀ cs : String → Option Conn,
      (Hub.addToRoom ⟨cs, h.rooms⟩ r inviter invitee).2 =
        (h.addToRoom r inviter invitee).2 ∧
      (Hub.addToRoom ⟨cs, h.rooms⟩ r inviter invitee).1.rooms =
        (h.addToRoom r inviter invitee).1.rooms) := by
  cases hr : h.rooms r with
  | none =>
    have hfst : h.addToRoom r inviter invitee = (h, "room " ++ r ++ " does not exist") := by
      simp [Hub.addToRoom, hr]
    refine ⟨?_, ?_, ?_, ?_⟩
    · intro _
      refine ⟨by rw [hfst], ?_⟩
      rw [hfst]
      exact append_ne_empty_right ("room " ++ r) " does not exist" (by decide)
    · intro room hroom; exact Option.noConfusion hroom
    · intro room hroom; exact Option.noConfusion hroom
    · intro cs
      have hcs : Hub.rooms ⟨cs, h.rooms⟩ = h.rooms := rfl
      have hfst' : Hub.addToRoom ⟨cs, h.rooms⟩ r inviter invitee =
          (⟨cs, h.rooms⟩, "room " ++ r ++ " does not exist") := by
        simp [Hub.addToRoom, hcs, hr]
      rw [hfst, hfst']
      exact ⟨rfl, rfl⟩
  | some room =>
    by_cases hm : inviter ∈ room.members
    · have hfst : h.addToRoom r inviter invitee =
          ({ h with rooms := fun x =>
              if x = r then some ⟨room.name, setInsert room.members invitee⟩
              else h.rooms x }, "") := by
        simp [Hub.addToRoom, hr, hm]
      refine ⟨?_, ?_, ?_, ?_⟩
      · intro habs; exact Option.noConfusion habs
      · intro room' hroom' hnm
        injection hroom' with he
        subst he
        exact absurd hm hnm
      · intro room' hroom' _
        injection hroom' with he
        subst he
        refine ⟨by rw [hfst], ?_, ?_, ?_⟩
        · refine ⟨⟨room.name, setInsert room.members invitee⟩, ?_, rfl, ?_⟩
          · simp [hfst]
          · intro x; exact mem_setInsert room.members invitee x
        · intro r' hr'
          simp [hfst, hr']
        · rw [hfst]
      · intro cs
        have hcs : Hub.rooms ⟨cs, h.rooms⟩ = h.rooms := rfl
        have hfst' : Hub.addToRoom ⟨cs, h.rooms⟩ r inviter invitee =
            (⟨cs, fun x =>
              if x = r then some ⟨room.name, setInsert room.members invitee⟩
              else h.rooms x⟩, "") := by
          simp [Hub.addToRoom, hcs, hr, hm]
        rw [hfst, hfst']
        exact ⟨rfl, rfl⟩
    · have hfst : h.addToRoom r inviter invitee =
          (h, "you are not a member of room " ++ r) := by
        simp [Hub.addToRoom, hr, hm]
      refine ⟨?_, ?_, ?_, ?_⟩
      · intro habs; exact Option.noConfusion habs
      · intro room' hroom' _
        injection hroom' with he
        subst he
        refine ⟨by rw [hfst], ?_⟩
        rw [hfst]
        exact append_ne_empty_left "you are not a member of room " r (by decide)
      · intro room' hroom' hmem
        injection hroom' with he
        subst he
        exact absurd hmem hm
      · intro cs
        have hcs : Hub.rooms ⟨cs, h.rooms⟩ = h.rooms := rfl
        have hfst' : Hub.addToRoom ⟨cs, h.rooms⟩ r inviter invitee =
            (⟨cs, h.rooms⟩, "you are not a member of room " ++ r) := by
          simp [Hub.addToRoom, hcs, hr, hm]
        rw [hfst, hfst']
        exact ⟨rfl, rfl⟩

/-! ## C7: direct-message routing -/

/-- C7: a message whose type is absent or unrecognized falls through to the
direct-message handler; a registered recipient receives the original raw
bytes unchanged; an absent recipient means the message is silently dropped
with no event at all (in particular no error record to the sender). -/
theorem directMessage_contract (h : Hub) (wres : WriteOracle) (u : String) (c : Conn)
    (raw : Nat) (msg : Message) :
    (msg.type ≠ "create_room" → msg.type ≠ "invite" → msg.type ≠ "room_msg" →
      dispatch h wres u c raw msg = (h, handleDirectMessage h wres msg raw)) ∧
    (∀ rc, h.get msg.recipient = some rc →
      handleDirectMessage h wres msg raw =
        [Event.write rc (Payload.raw raw) (wres rc (Payload.raw raw))]) ∧
    (h.get msg.recipient = none → handleDirectMessage h wres msg raw = []) := by
  refine ⟨?_, ?_, ?_⟩
  · intro h1 h2 h3
    simp [dispatch, h1, h2, h3]
  · intro rc hrc
    simp [handleDirectMessage, hrc]
  · intro hnone
    simp [handleDirectMessage, hnone]

/-! ## Room broadcast helper lemmas -/

/-- Any event the room-message handler emits is a write of the once-encoded
broadcast record, directed at a registered member other than the sender. -/
theorem mem_handleRoomMessage (h : Hub) (wres : WriteOracle) (u : String)
    (msg : Message) (e : Event) (he : e ∈ handleRoomMessage h wres u msg) :
    ∃ members m cm, h.getRoomMembers msg.room u = some members ∧
      m ∈ members ∧ m ≠ u ∧ h.get m = some cm ∧
      e = Event.write cm (Payload.enc (roomBroadcast u msg.room msg.content))
        (wres cm (Payload.enc (roomBroadcast u msg.room msg.content))) := by
  by_cases hroom : msg.room = ""
  · simp [handleRoomMessage, hroom] at he
  · cases hmem : h.getRoomMembers msg.room u with
    | none => simp [handleRoomMessage, hroom, hmem] at he
    | some members =>
      rw [show handleRoomMessage h wres u msg =
          (members.filter (fun m => m ≠ u)).filterMap
            (fun memberID =>
              (h.get memberID).map
                (fun memberConn =>
                  Event.write memberConn (Payload.enc (roomBroadcast u msg.room msg.content))
                    (wres memberConn (Payload.enc (roomBroadcast u msg.room msg.content)))))
          from by simp [handleRoomMessage, hroom, hmem]] at he
      rcases List.mem_filterMap.mp he with ⟨m, hmf, hme⟩
      rcases List.mem_filter.mp hmf with ⟨hml, hmu⟩
      rcases Option.map_eq_some'.mp hme with ⟨cm, hcm, hwe⟩
      exact ⟨members, m, cm, rfl, hml, by simpa using hmu, hcm, hwe.symm⟩

/-! ## C3: room broadcast fan-out -/

/-- C3: `handleRoomMessage` resolves the member set through
`getRoomMembers(room, sender)`; a missing room field or a `none` member list
(nonexistent room or non-member sender) silently drops the message, emitting
no event and in particular no error record to the sender; on success the
message is re-encoded once as `{kind: room_msg, sender, room, content}` and
exactly the members other than the sender whose connections are present in
the registry are written those identical bytes. -/
theorem roomMessage_contract (h : Hub) (wres : WriteOracle) (u : String) (msg : Message) :
    (msg.room = "" → handleRoomMessage h wres u msg = []) ∧
    (h.getRoomMembers msg.room u = none → handleRoomMessage h wres u msg = []) ∧
    (∀ members, msg.room ≠ "" → h.getRoomMembers msg.room u = some members →
      (∀ m, m ∈ members → m ≠ u → ∀ cm, h.get m = some cm →
        Event.write cm (Payload.enc (roomBroadcast u msg.room msg.content))
          (wres cm (Payload.enc (roomBroadcast u msg.room msg.content)))
          ∈ handleRoomMessage h wres u msg) ∧
      (∀ e, e ∈ handleRoomMessage h wres u msg →
        ∃ m cm, m ∈ members ∧ m ≠ u ∧ h.get m = some cm ∧
          e = Event.write cm (Payload.enc (roomBroadcast u msg.room msg.content))
            (wres cm (Payload.enc (roomBroadcast u msg.room msg.content))))) := by
  refine ⟨?_, ?_, ?_⟩
  · intro hroom
    simp [handleRoomMessage, hroom]
  · intro hnone
    by_cases hroom : msg.room = ""
    · simp [handleRoomMessage, hroom]
    · simp [handleRoomMessage, hroom, hnone]
  · intro members hroom hmem
    constructor
    · intro m hml hmu cm hcm
      rw [show handleRoomMessage h wres u msg =
          (members.filter (fun m => m ≠ u)).filterMap
            (fun memberID =>
              (h.get memberID).map
                (fun memberConn =>
                  Event.write memberConn (Payload.enc (roomBroadcast u msg.room msg.content))
                    (wres memberConn (Payload.enc (roomBroadcast u msg.room msg.content)))))
          from by simp [handleRoomMessage, hroom, hmem]]
      refine List.mem_filterMap.mpr ⟨m, List.mem_filter.mpr ⟨hml, by simpa using hmu⟩, ?_⟩
      rw [hcm]
      rfl
    · intro e he
      rcases mem_handleRoomMessage h wres u msg e he with
        ⟨members', m, cm, hmem', hml, hmu, hcm, hwe⟩
      rw [hmem] at hmem'
      injection hmem' with hms
      subst hms
      exact ⟨m, cm, hml, hmu, hcm, hwe⟩

/-! ## C10: broadcast sender cannot be spoofed -/

/-- C10: every event of a room broadcast handled for connection identity `u`
carries the once-encoded record whose sender field is `u` (never the inbound
message's claimed sender); and two inbound messages that agree on room and
content — in particular two that differ only in their sender and recipient
fields — produce identical broadcast events, hence identical bytes and
identical recipient sets. -/
theorem roomMessage_no_spoof (h : Hub) (wres : WriteOracle) (u : String)
    (msg₁ msg₂ : Message) :
    (∀ e ∈ handleRoomMessage h wres u msg₁, ∃ cm ok,
      e = Event.write cm (Payload.enc (roomBroadcast u msg₁.room msg₁.content)) ok) ∧
    (msg₁.room = msg₂.room → msg₁.content = msg₂.content →
      handleRoomMessage h wres u msg₁ = handleRoomMessage h wres u msg₂) := by
  constructor
  · intro e he
    rcases mem_handleRoomMessage h wres u msg₁ e he with
      ⟨members, m, cm, hmem, hml, hmu, hcm, hwe⟩
    exact ⟨cm, wres cm (Payload.enc (roomBroadcast u msg₁.room msg₁.content)), hwe⟩
  · intro hr hc
    simp only [handleRoomMessage, hr, hc]

/-! ## C8: fan-out is best-effort -/

/-- The sequence of attempted writes (connection and payload) of an event
list, forgetting whether each write succeeded. -/
def attempted (evs : List Event) : List (Conn × Payload) :=
  evs.filterMap (fun e =>
    match e with
    | Event.write cm p _ => some (cm, p)
    | _ => none)

/-- The attempted writes of a member fan-out do not depend on which writes
the transport fails. -/
theorem attempted_fanout_oracle_free (h : Hub) (data : Payload)
    (w₁ w₂ : WriteOracle) (l : List String) :
    attempted (l.filterMap
      (fun memberID => (h.get memberID).map
        (fun memberConn => Event.write memberConn data (w₁ memberConn data)))) =
    attempted (l.filterMap
      (fun memberID => (h.get memberID).map
        (fun memberConn => Event.write memberConn data (w₂ memberConn data)))) := by
  induction l with
  | nil => rfl
  | cons a t ih =>
    cases hga : h.get a with
    | none => simpa [List.filterMap_cons, hga] using ih
    | some cm =>
      simp only [List.filterMap_cons, hga, Option.map_some']
      simp only [attempted, List.filterMap_cons] at ih ⊢
      rw [ih]

/-- Every event `handleCreateRoom` emits is a write. -/
theorem handleCreateRoom_events_isWrite (h : Hub) (wres : WriteOracle) (u : String)
    (msg : Message) (c : Conn) :
    ∀ e ∈ (handleCreateRoom h wres u msg c).2, e.isWrite = true := by
  intro e he
  simp only [handleCreateRoom] at he
  split_ifs at he <;> simp at he <;> subst he <;> rfl

/-- Every event `handleInvite` emits is a write. -/
theorem handleInvite_events_isWrite (h : Hub) (wres : WriteOracle) (u : String)
    (msg : Message) (c : Conn) :
    ∀ e ∈ (handleInvite h wres u msg c).2, e.isWrite = true := by
  intro e he
  simp only [handleInvite] at he
  split_ifs at he
  all_goals try split at he
  all_goals
    first
    | (simp at he; subst he; rfl)
    | (simp at he; rcases he with rfl | rfl <;> rfl)

/-- Every event `handleDirectMessage` emits is a write. -/
theorem handleDirectMessage_events_isWrite (h : Hub) (wres : WriteOracle)
    (msg : Message) (raw : Nat) :
    ∀ e ∈ handleDirectMessage h wres msg raw, e.isWrite = true := by
  intro e he
  simp only [handleDirectMessage] at he
  split at he
  · simp at he
  · simp at he
    subst he; rfl

/-- Every event `handleRoomMessage` emits is a write. -/
theorem handleRoomMessage_events_isWrite (h : Hub) (wres : WriteOracle) (u : String)
    (msg : Message) :
    ∀ e ∈ handleRoomMessage h wres u msg, e.isWrite = true := by
  intro e he
  rcases mem_handleRoomMessage h wres u msg e he with ⟨_, _, _, _, _, _, _, hwe⟩
  subst hwe; rfl

/-- Every event the dispatcher emits for one inbound message is a write:
no inbound message can make the dispatcher close or deregister anything. -/
theorem dispatch_events_isWrite (h : Hub) (wres : WriteOracle) (u : String)
    (c : Conn) (raw : Nat) (msg : Message) :
    ∀ e ∈ (dispatch h wres u c raw msg).2, e.isWrite = true := by
  intro e he
  simp only [dispatch] at he
  split at he
  · exact handleCreateRoom_events_isWrite h wres u msg c e he
  · split at he
    · exact handleInvite_events_isWrite h wres u msg c e he
    · split at he
      · exact handleRoomMessage_events_isWrite h wres u msg e he
      · exact handleDirectMessage_events_isWrite h wres msg raw e he

/-- C8: fan-out delivery is best-effort.  The sequence of attempted writes of
a room broadcast is the same whatever write-failure pattern the transport
exhibits — a failed write to one recipient never short-circuits the attempts
to the rest; and the session loop treats a dispatched frame as non-fatal:
its events are the dispatch writes followed by the processing of the
remaining input, with no close or unregister contributed by the frame. -/
theorem fanout_best_effort (h : Hub) (u : String) (msg : Message)
    (wres₁ wres₂ : WriteOracle) :
    (attempted (handleRoomMessage h wres₁ u msg) =
      attempted (handleRoomMessage h wres₂ u msg)) ∧
    (∀ c raw rest,
      (sessionLoop wres₁ u c h (ReadItem.frame raw (some msg) :: rest)).2 =
        (dispatch h wres₁ u c raw msg).2 ++
          (sessionLoop wres₁ u c (dispatch h wres₁ u c raw msg).1 rest).2 ∧
      ∀ e ∈ (dispatch h wres₁ u c raw msg).2, e.isWrite = true) := by
  constructor
  · by_cases hroom : msg.room = ""
    · simp [handleRoomMessage, hroom]
    · cases hmem : h.getRoomMembers msg.room u with
      | none => simp [handleRoomMessage, hroom, hmem]
      | some members =>
        simp only [handleRoomMessage, hroom, hmem, if_neg]
        exact attempted_fanout_oracle_free h
          (Payload.enc (roomBroadcast u msg.room msg.content)) wres₁ wres₂
          (members.filter (fun m => m ≠ u))
  · intro c raw rest
    exact ⟨rfl, dispatch_events_isWrite h wres₁ u c raw msg⟩

/-! ## C1: cleanup on session close -/

/-- Whether, in an event trace, an `unregister` of the given identity occurs
strictly before the first `close`. -/
def unregBeforeClose (uid : String) : List Event → Bool
  | [] => false
  | Event.close :: _ => false
  | Event.unregister i :: rest =>
      if i = uid then decide (Event.close ∈ rest) else unregBeforeClose uid rest
  | Event.write _ _ _ :: rest => unregBeforeClose uid rest

/-- C1 counterexample: on a connection for "alice" whose first read fails, the
session handler's trace is `close` followed by `unregister "alice"` — the
deferred calls run in LIFO order, so the transport close happens first and
the claimed unregister-before-close order does not hold. -/
theorem sessionCleanup_counterexample :
    (wsHandler NewHub (fun _ _ => true) "alice" ⟨0⟩ [ReadItem.failure]).2 =
      [Event.close, Event.unregister "alice"] ∧
    unregBeforeClose "alice"
      ((wsHandler NewHub (fun _ _ => true) "alice" ⟨0⟩ [ReadItem.failure]).2) = false := by
  constructor
  · rfl
  · rfl

/-- On any input trace containing a read failure, the read loop stops at the
first failure and the deferred cleanups run: every event before them is a
dispatch write, the non-write events are exactly one `close` followed by one
`unregister`, and the identity is no longer registered afterwards. -/
theorem sessionLoop_cleanup (wres : WriteOracle) (uid : String) (c : Conn) :
    ∀ (items : List ReadItem) (h : Hub), ReadItem.failure ∈ items →
      ((sessionLoop wres uid c h items).2.filter (fun e => !e.isWrite) =
        [Event.close, Event.unregister uid]) ∧
      (sessionLoop wres uid c h items).1.get uid = none := by
  intro items
  induction items with
  | nil =>
    intro h hf
    simp at hf
  | cons item rest ih =>
    intro h hf
    cases item with
    | failure =>
      constructor
      · rfl
      · simp [sessionLoop, Hub.unregister, Hub.get]
    | frame raw dec =>
      have hf' : ReadItem.failure ∈ rest := by
        rcases List.mem_cons.mp hf with h1 | h1
        · exact absurd h1 (by simp)
        · exact h1
      cases dec with
      | none =>
        simpa [sessionLoop] using ih h hf'
      | some msg =>
        constructor
        · simp only [sessionLoop, List.filter_append]
          have hd : (dispatch h wres uid c raw msg).2.filter (fun e => !e.isWrite) = [] := by
            refine List.filter_eq_nil_iff.mpr ?_
            intro a ha
            simp [dispatch_events_isWrite h wres uid c raw msg a ha]
          rw [hd]
          simpa using (ih (dispatch h wres uid c raw msg).1 hf').1
        · simpa [sessionLoop] using (ih (dispatch h wres uid c raw msg).1 hf').2

/-- C1 amended: when the read loop of a session for a non-empty identity
terminates (a read failure occurs), the handler performs exactly one
transport close and exactly one `unregister`, and — the deferred calls
running in LIFO order — the close happens before the unregister; afterwards
the registry no longer names the identity. -/
theorem sessionCleanup_contract (h : Hub) (wres : WriteOracle) (uid : String)
    (c : Conn) (items : List ReadItem) (huid : uid ≠ "")
    (hfail : ReadItem.failure ∈ items) :
    ((wsHandler h wres uid c items).2.filter (fun e => !e.isWrite) =
      [Event.close, Event.unregister uid]) ∧
    (wsHandler h wres uid c items).1.get uid = none := by
  unfold wsHandler
  rw [if_neg huid]
  exact sessionLoop_cleanup wres uid c items (h.register uid c) hfail

/-- Witness for the amended C1 at a concrete session. -/
theorem sessionCleanup_contract_witness :
    ((wsHandler NewHub (fun _ _ => true) "bob" ⟨1⟩ [ReadItem.failure]).2.filter
        (fun e => !e.isWrite) = [Event.close, Event.unregister "bob"]) ∧
    (wsHandler NewHub (fun _ _ => true) "bob" ⟨1⟩ [ReadItem.failure]).1.get "bob" = none :=
  sessionCleanup_contract NewHub (fun _ _ => true) "bob" ⟨1⟩ [ReadItem.failure]
    (by decide) (by decide)

/-! ## C9: room state is monotone -/

/-- Room-state growth: every room of the first hub is still present in the
second, with the same name and a member set that has only grown. -/
def roomLe (h h' : Hub) : Prop :=
  ∀ n room, h.rooms n = some room →
    ∃ room', h'.rooms n = some room' ∧ room.name = room'.name ∧
      room.members ⊆ room'.members

/-- Name uniqueness invariant: the room stored under a name carries that name,
so the room map holds at most one room per name. -/
def roomNamesConsistent (h : Hub) : Prop :=
  ∀ n room, h.rooms n = some room → room.name = n

theorem roomLe_refl (h : Hub) : roomLe h h :=
  fun _ room hr => ⟨room, hr, rfl, fun _ hx => hx⟩

theorem roomLe_trans {h₁ h₂ h₃ : Hub} (h12 : roomLe h₁ h₂) (h23 : roomLe h₂ h₃) :
    roomLe h₁ h₃ := by
  intro n room hr
  rcases h12 n room hr with ⟨room', hr', hn', hm'⟩
  rcases h23 n room' hr' with ⟨room'', hr'', hn'', hm''⟩
  exact ⟨room'', hr'', hn'.trans hn'', fun x hx => hm'' (hm' hx)⟩

/-- Operation `createRoom` never removes or shrinks a room. -/
theorem roomLe_createRoom (h : Hub) (n c0 : String) : roomLe h (h.createRoom n c0).1 := by
  intro m room hm
  cases hn : h.rooms n with
  | some r0 =>
    refine ⟨room, ?_, rfl, fun x hx => hx⟩
    simp [Hub.createRoom, hn, hm]
  | none =>
    have hmn : m ≠ n := by
      intro he
      subst he
      rw [hm] at hn
      exact Option.noConfusion hn
    refine ⟨room, ?_, rfl, fun x hx => hx⟩
    simp [Hub.createRoom, hn, hmn, hm]

/-- Operation `addToRoom` never removes or shrinks a room. -/
theorem roomLe_addToRoom (h : Hub) (r a b : String) : roomLe h (h.addToRoom r a b).1 := by
  intro m room hm
  cases hr : h.rooms r with
  | none =>
    refine ⟨room, ?_, rfl, fun x hx => hx⟩
    simp [Hub.addToRoom, hr, hm]
  | some room0 =>
    by_cases hmem : a ∈ room0.members
    · by_cases hmr : m = r
      · subst hmr
        have h00 : room0 = room := by
          rw [hm] at hr
          injection hr with hv
          exact hv.symm
        subst h00
        refine ⟨⟨room0.name, setInsert room0.members b⟩, ?_, rfl,
          subset_setInsert room0.members b⟩
        simp [Hub.addToRoom, hr, hmem]
      · refine ⟨room, ?_, rfl, fun x hx => hx⟩
        simp [Hub.addToRoom, hr, hmem, hmr, hm]
    · refine ⟨room, ?_, rfl, fun x hx => hx⟩
      simp [Hub.addToRoom, hr, hmem, hm]

/-- Operation `createRoom` preserves the name-uniqueness invariant. -/
theorem namesConsistent_createRoom (h : Hub) (n c0 : String)
    (hc : roomNamesConsistent h) : roomNamesConsistent (h.createRoom n c0).1 := by
  intro m room hm
  cases hn : h.rooms n with
  | some r0 =>
    simp [Hub.createRoom, hn] at hm
    exact hc m room hm
  | none =>
    simp only [Hub.createRoom, hn] at hm
    by_cases hmn : m = n
    · subst hmn
      simp at hm
      rw [← hm]
    · simp [hmn] at hm
      exact hc m room hm

/-- Operation `addToRoom` preserves the name-uniqueness invariant. -/
theorem namesConsistent_addToRoom (h : Hub) (r a b : String)
    (hc : roomNamesConsistent h) : roomNamesConsistent (h.addToRoom r a b).1 := by
  intro m room hm
  cases hr : h.rooms r with
  | none =>
    simp [Hub.addToRoom, hr] at hm
    exact hc m room hm
  | some room0 =>
    by_cases hmem : a ∈ room0.members
    · simp only [Hub.addToRoom, hr, hmem, if_pos] at hm
      by_cases hmr : m = r
      · subst hmr
        simp at hm
        rw [← hm]
        exact hc m room0 hr
      · simp [hmr] at hm
        exact hc m room hm
    · simp [Hub.addToRoom, hr, hmem] at hm
      exact hc m room hm

/-- The hub the create-room handler leaves behind is either untouched or the
result of one `createRoom`. -/
theorem handleCreateRoom_fst (h : Hub) (wres : WriteOracle) (u : String)
    (msg : Message) (c : Conn) :
    (handleCreateRoom h wres u msg c).1 = h ∨
    ∃ name, (handleCreateRoom h wres u msg c).1 = (h.createRoom name u).1 := by
  simp only [handleCreateRoom]
  by_cases h1 : (if msg.content = "" then msg.room else msg.content) = ""
  · left
    simp [h1]
  · right
    refine ⟨if msg.content = "" then msg.room else msg.content, ?_⟩
    by_cases h2 : (h.createRoom (if msg.content = "" then msg.room else msg.content) u).2 = "" <;>
      simp [h1, h2]

/-- The hub the invite handler leaves behind is either untouched or the
result of one `addToRoom`. -/
theorem handleInvite_fst (h : Hub) (wres : WriteOracle) (u : String)
    (msg : Message) (c : Conn) :
    (handleInvite h wres u msg c).1 = h ∨
    (handleInvite h wres u msg c).1 = (h.addToRoom msg.room u msg.recipient).1 := by
  simp only [handleInvite]
  by_cases h1 : msg.room = "" ∨ msg.recipient = ""
  · left
    simp [h1]
  · right
    by_cases h2 : (h.addToRoom msg.room u msg.recipient).2 = ""
    · cases hg : (h.addToRoom msg.room u msg.recipient).1.get msg.recipient <;>
        simp [h1, h2, hg]
    · simp [h1, h2]

/-- One dispatched message never removes or shrinks a room. -/
theorem dispatch_roomLe (h : Hub) (wres : WriteOracle) (u : String) (c : Conn)
    (raw : Nat) (msg : Message) : roomLe h (dispatch h wres u c raw msg).1 := by
  by_cases t1 : msg.type = "create_room"
  · rw [show (dispatch h wres u c raw msg).1 = (handleCreateRoom h wres u msg c).1 from by
      simp [dispatch, t1]]
    rcases handleCreateRoom_fst h wres u msg c with he | ⟨name, he⟩
    · rw [he]; exact roomLe_refl h
    · rw [he]; exact roomLe_createRoom h name u
  · by_cases t2 : msg.type = "invite"
    · rw [show (dispatch h wres u c raw msg).1 = (handleInvite h wres u msg c).1 from by
        simp [dispatch, t1, t2]]
      rcases handleInvite_fst h wres u msg c with he | he
      · rw [he]; exact roomLe_refl h
      · rw [he]; exact roomLe_addToRoom h msg.room u msg.recipient
    · by_cases t3 : msg.type = "room_msg"
      · rw [show (dispatch h wres u c raw msg).1 = h from by simp [dispatch, t1, t2, t3]]
        exact roomLe_refl h
      · rw [show (dispatch h wres u c raw msg).1 = h from by simp [dispatch, t1, t2, t3]]
        exact roomLe_refl h

/-- One dispatched message preserves the name-uniqueness invariant. -/
theorem dispatch_namesConsistent (h : Hub) (wres : WriteOracle) (u : String)
    (c : Conn) (raw : Nat) (msg : Message) (hc : roomNamesConsistent h) :
    roomNamesConsistent (dispatch h wres u c raw msg).1 := by
  by_cases t1 : msg.type = "create_room"
  · rw [show (dispatch h wres u c raw msg).1 = (handleCreateRoom h wres u msg c).1 from by
      simp [dispatch, t1]]
    rcases handleCreateRoom_fst h wres u msg c with he | ⟨name, he⟩
    · rw [he]; exact hc
    · rw [he]; exact namesConsistent_createRoom h name u hc
  · by_cases t2 : msg.type = "invite"
    · rw [show (dispatch h wres u c raw msg).1 = (handleInvite h wres u msg c).1 from by
        simp [dispatch, t1, t2]]
      rcases handleInvite_fst h wres u msg c with he | he
      · rw [he]; exact hc
      · rw [he]; exact namesConsistent_addToRoom h msg.room u msg.recipient hc
    · by_cases t3 : msg.type = "room_msg"
      · rw [show (dispatch h wres u c raw msg).1 = h from by simp [dispatch, t1, t2, t3]]
        exact hc
      · rw [show (dispatch h wres u c raw msg).1 = h from by simp [dispatch, t1, t2, t3]]
        exact hc

/-- Over a whole read loop, room state only grows and names stay consistent. -/
theorem sessionLoop_roomLe (wres : WriteOracle) (uid : String) (c : Conn) :
    ∀ (items : List ReadItem) (h : Hub),
      roomLe h (sessionLoop wres uid c h items).1 ∧
      (roomNamesConsistent h → roomNamesConsistent (sessionLoop wres uid c h items).1) := by
  intro items
  induction items with
  | nil =>
    intro h
    exact ⟨roomLe_refl h, fun hc => hc⟩
  | cons item rest ih =>
    intro h
    cases item with
    | failure =>
      have hl : (sessionLoop wres uid c h (ReadItem.failure :: rest)).1 = h.unregister uid := by
        simp [sessionLoop]
      rw [hl]
      exact ⟨fun n room hr => ⟨room, hr, rfl, fun x hx => hx⟩, fun hc => hc⟩
    | frame raw dec =>
      cases dec with
      | none =>
        have hl : sessionLoop wres uid c h (ReadItem.frame raw none :: rest) =
            sessionLoop wres uid c h rest := by
          simp [sessionLoop]
        rw [hl]
        exact ih h
      | some msg =>
        have hl : (sessionLoop wres uid c h (ReadItem.frame raw (some msg) :: rest)).1 =
            (sessionLoop wres uid c (dispatch h wres uid c raw msg).1 rest).1 := by
          simp [sessionLoop]
        rw [hl]
        constructor
        · exact roomLe_trans (dispatch_roomLe h wres uid c raw msg)
            (ih (dispatch h wres uid c raw msg).1).1
        · intro hc
          exact (ih (dispatch h wres uid c raw msg).1).2
            (dispatch_namesConsistent h wres uid c raw msg hc)

/-- C9: room state is monotone — no core operation (registry client ops, room
ops, or a whole session) deletes a room or removes a member, so a created
room persists with a member set that only grows; and the room map keeps at
most one room per name (name-consistency is preserved by every session). -/
theorem roomMonotone_contract (h : Hub) :
    (∀ i cn, roomLe h (h.register i cn)) ∧
    (∀ i, roomLe h (h.unregister i)) ∧
    (∀ n c0, roomLe h (h.createRoom n c0).1) ∧
    (∀ r a b, roomLe h (h.addToRoom r a b).1) ∧
    (∀ wres uid c items, roomLe h (wsHandler h wres uid c items).1) ∧
    (roomNamesConsistent h → ∀ wres uid c items,
      roomNamesConsistent (wsHandler h wres uid c items).1) := by
  refine ⟨?_, ?_, fun n c0 => roomLe_createRoom h n c0,
    fun r a b => roomLe_addToRoom h r a b, ?_, ?_⟩
  · intro i cn n room hr
    exact ⟨room, hr, rfl, fun x hx => hx⟩
  · intro i n room hr
    exact ⟨room, hr, rfl, fun x hx => hx⟩
  · intro wres uid c items
    unfold wsHandler
    by_cases hu : uid = ""
    · rw [if_pos hu]
      exact roomLe_refl h
    · rw [if_neg hu]
      exact roomLe_trans (fun n room hr => ⟨room, hr, rfl, fun x hx => hx⟩)
        (sessionLoop_roomLe wres uid c items (h.register uid c)).1
  · intro hc wres uid c items
    unfold wsHandler
    by_cases hu : uid = ""
    · rw [if_pos hu]
      exact hc
    · rw [if_neg hu]
      exact (sessionLoop_roomLe wres uid c items (h.register uid c)).2 hc

end WhatsappGemini
